import Mathlib

/-!
Shallow embedding of `convert_to_utf8_` from
`xapian-applications/omega/utf8convert.cc`, together with theorems checking
the natural-language specification of the conversion engine against it.

Bytes are modelled as `Nat` values below 256, charset labels as `List Char`,
and the fallible conversion as `Option (List Nat)`: `none` corresponds to the
function returning `false` with the output string left untouched, `some bs`
to returning `true` with output `bs`.  The external iconv facility is a
parameter of the embedding (see `convert_to_utf8_`).
-/

namespace Utf8Convert

/-- ASCII-only lowercasing of one character, as C `tolower` behaves for the
byte values reachable from a charset label; used to embed the
`strcasecmp`/`strncasecmp` comparisons of the source. -/
def asciiLower (c : Char) : Char :=
  if 'A' ≤ c ∧ c ≤ 'Z' then Char.ofNat (c.toNat + 32) else c

/-- Embeds `strcasecmp(p, lit) == 0` for an all-lowercase literal `lit`. -/
def lowEq (cs lit : List Char) : Bool := cs.map asciiLower == lit

/-- Embeds `strncasecmp(p, lit, strlen(lit)) == 0` for an all-lowercase
literal `lit`. -/
def lowStarts (lit cs : List Char) : Bool := lit.isPrefixOf (cs.map asciiLower)

/-- One optional separator skip:
`if (*p == '-' || *p == '_' || *p == ' ') ++p;` (utf8convert.cc lines 64,
70, 157, 163, 167). -/
def dropSep : List Char → List Char
  | c :: rest => if c = '-' ∨ c = '_' ∨ c = ' ' then rest else c :: rest
  | [] => []

/-- The already-UTF-8 shortcut of lines 42–52: any case variation of
`utf-8`, `utf8`, `us-ascii`, or the empty label. -/
def passthroughLabel (cs : List Char) : Bool :=
  lowEq cs (("utf-8").toList) || lowEq cs (("utf8").toList) ||
    lowEq cs (("us-ascii").toList) || cs.isEmpty

/-- Outcome of the `utf`/`ucs` prefix stage (lines 61–74): `utf16 s` when the
`utf16` flag is set with `p` left at suffix `s`; `toIconv` when
`goto try_iconv` fires during the prefix parse; `other` when the label does
not start with `utf`/`ucs` and control falls into the single-byte branch. -/
inductive PreParse where
  | utf16 (suffix : List Char)
  | toIconv
  | other
deriving DecidableEq

def preParse (cs : List Char) : PreParse :=
  if lowStarts (("utf").toList) cs then
    match dropSep (cs.drop 3) with
    | '1' :: '6' :: s => .utf16 s
    | _ => .toIconv
  else if lowStarts (("ucs").toList) cs then
    match dropSep (cs.drop 3) with
    | '2' :: s => .utf16 s
    | _ => .toIconv
  else .other

/-- Endianness resolution from the label suffix (lines 81–97): `some none`
means detect from BOM (empty suffix), `some (some false)` forced
little-endian, `some (some true)` forced big-endian, `none` means the suffix
is invalid and `goto try_iconv` fires. -/
def utf16Endian (s : List Char) : Option (Option Bool) :=
  if s = [] then some none
  else if lowEq s (("le").toList) then some (some false)
  else if lowEq s (("be").toList) then some (some true)
  else none

/-- The single-byte family dispatch of lines 150–171. -/
inductive SbRoute where
  | cp1252
  | iso885915
  | toIconv
deriving DecidableEq

def singleByteRoute (cs : List Char) : SbRoute :=
  if lowStarts (("windows").toList) cs then
    if dropSep (cs.drop 7) = ("1252").toList then .cp1252 else .toIconv
  else if lowStarts (("cp").toList) cs then
    if dropSep (cs.drop 2) = ("1252").toList then .cp1252 else .toIconv
  else
    let r := if lowStarts (("iso").toList) cs then dropSep (cs.drop 3) else cs
    if (("8859").toList).isPrefixOf r then
      match dropSep (r.drop 4) with
      | '1' :: rest =>
        if rest = ['5'] then .iso885915
        else if rest = [] then .cp1252
        else .toIconv
      | _ => .toIconv
    else .toIconv

/-- Modelled from the spec: `Xapian::Unicode::to_utf8` (xapian-core, not part
of the provided sources).  Spec §4.5: one scalar value is encoded into its
minimal UTF-8 byte sequence, 1–4 bytes per the standard range partition
`< 0x80`, `< 0x800`, `< 0x10000`, else 4 bytes. -/
def to_utf8 (ch : Nat) : List Nat :=
  if ch < 0x80 then [ch]
  else if ch < 0x800 then
    [0xc0 ||| (ch >>> 6), 0x80 ||| (ch &&& 0x3f)]
  else if ch < 0x10000 then
    [0xe0 ||| (ch >>> 12), 0x80 ||| ((ch >>> 6) &&& 0x3f), 0x80 ||| (ch &&& 0x3f)]
  else
    [0xf0 ||| (ch >>> 18), 0x80 ||| ((ch >>> 12) &&& 0x3f),
     0x80 ||| ((ch >>> 6) &&& 0x3f), 0x80 ||| (ch &&& 0x3f)]

/-- One pass of `start += Xapian::Unicode::to_utf8(ch, buf + start);
if (start >= sizeof(buf) - 4) { tmp.append(buf, start); start = 0; }`
(lines 134–138, 188–192, 238–242).  The state is `(tmp, buf)` where `buf`
is the used part of the 1024-byte staging buffer (`start = buf.length`). -/
def chunkStep (acc : List Nat × List Nat) (ch : Nat) : List Nat × List Nat :=
  let buf := acc.2 ++ to_utf8 ch
  if 1020 ≤ buf.length then (acc.1 ++ buf, []) else (acc.1, buf)

/-- The accumulator states at each point where a scalar value is about to be
encoded into the staging buffer. -/
def chunkStates (acc : List Nat × List Nat) : List Nat → List (List Nat × List Nat)
  | [] => []
  | ch :: rest => acc :: chunkStates (chunkStep acc ch) rest

/-- Encoding of a scalar stream through the chunked staging buffer, with the
final `if (start) tmp.append(buf, start);` flush (lines 140, 194, 244). -/
def encodeChunked (scalars : List Nat) : List Nat :=
  let p := scalars.foldl chunkStep ([], [])
  p.1 ++ p.2

/-- Assembly of one 16-bit unit from two bytes (lines 110–116):
`ch = (ch << 8) | ch2` for big-endian, `ch = (ch2 << 8) | ch` otherwise. -/
def utf16Unit (be : Bool) (b1 b2 : Nat) : Nat :=
  if be then (b1 <<< 8) ||| b2 else (b2 <<< 8) ||| b1

/-- The UTF-16 decode loop of lines 109–139, producing the scalar values in
emission order.  A current unit with `ch >> 10 == 0xd800 >> 10` (a high
surrogate) reads the next unit unconditionally when one exists (`break` at
end of stream) and combines only when the next unit has
`ch >> 10 == 0xdc00 >> 10`. -/
def utf16Scalars (be : Bool) : List Nat → List Nat
  | b1 :: b2 :: rest =>
    let ch := utf16Unit be b1 b2
    if ch >>> 10 = 0xd800 >>> 10 then
      match rest with
      | b3 :: b4 :: rest2 =>
        let v := utf16Unit be b3 b4
        let scalar :=
          if v >>> 10 = 0xdc00 >>> 10 then
            ((v &&& 0x3ff) ||| ((ch &&& 0x3ff) <<< 10)) + 0x10000
          else v
        scalar :: utf16Scalars be rest2
      | _ => []
    else ch :: utf16Scalars be rest
  | _ => []

/-- BOM handling of lines 79–97 in the embedding: with an explicit endianness
the input is untouched; in detect mode a leading `FE FF` / `FF FE` picks the
endianness and is consumed, anything else defaults to big-endian. -/
def bomSplit (endian : Option Bool) (text : List Nat) : Bool × List Nat :=
  match endian with
  | some b => (b, text)
  | none =>
    match text with
    | t1 :: t2 :: r =>
      if t1 = 0xfe ∧ t2 = 0xff then (true, r)
      else if t1 = 0xff ∧ t2 = 0xfe then (false, r)
      else (true, t1 :: t2 :: r)
    | t => (true, t)

/-- The odd-length truncation of lines 103–107: `if (text.size() & 1)
--text_end;` applied to the part of the input the decode loop will walk. -/
def evenTrunc (l : List Nat) : List Nat :=
  if l.length % 2 = 1 then l.dropLast else l

/-- The whole UTF-16/UCS-2 decode of lines 99–140 for a resolved endianness
specification (`none` = detect from BOM). -/
def utf16Convert (endian : Option Bool) (text : List Nat) : List Nat :=
  let p := bomSplit endian text
  encodeChunked (utf16Scalars p.1 (evenTrunc p.2))

/-- `cp1252_to_unicode` table (lines 178–183). -/
def cp1252_to_unicode : List Nat :=
  [0x20ac, 0x0081, 0x201a, 0x0192, 0x201e, 0x2026, 0x2020, 0x2021,
   0x02c6, 0x2030, 0x0160, 0x2039, 0x0152, 0x008d, 0x017d, 0x008f,
   0x0090, 0x2018, 0x2019, 0x201c, 0x201d, 0x2022, 0x2013, 0x2014,
   0x02dc, 0x2122, 0x0161, 0x203a, 0x0153, 0x009d, 0x017e, 0x0178]

/-- Per-byte mapping of lines 184–187: `unsigned i = code_point - 128;`
(32-bit unsigned wraparound) with a table lookup when `i < 32`. -/
def cp1252CodePoint (ch : Nat) : Nat :=
  let i := (ch + (4294967296 - 128)) % 4294967296
  if i < 32 then cp1252_to_unicode.getD i 0 else ch

/-- `iso8859_15_to_unicode` table (lines 228–233). -/
def iso8859_15_to_unicode : List Nat :=
  [0x20ac, 0x00a5, 0x0160, 0x00a7, 0x0161, 0x00a9, 0x00aa, 0x00ab,
   0x00ac, 0x00ad, 0x00ae, 0x00af, 0x00b0, 0x00b1, 0x00b2, 0x00b3,
   0x017d, 0x00b5, 0x00b6, 0x00b7, 0x017e, 0x00b9, 0x00ba, 0x00bb,
   0x0152, 0x0153, 0x0178]

/-- Per-byte mapping of lines 234–237: `unsigned i = code_point - 164;`
(32-bit unsigned wraparound) with a table lookup when `i < 27`. -/
def iso8859_15CodePoint (ch : Nat) : Nat :=
  let i := (ch + (4294967296 - 164)) % 4294967296
  if i < 27 then iso8859_15_to_unicode.getD i 0 else ch

/-- Modelled from the spec: the external iconv facility of §4.4/§6 (not part
of the provided sources).  `iconv cs = none` embeds `iconv_open` failing (or
`HAVE_ICONV` being unset); `iconv cs = some f` embeds a usable context whose
total produced output on input `t` is `f t` (on a mid-stream error the code
keeps the partial output and still returns `true`, so the result is always
`some (f text)` once the context opened). -/
def IconvModel : Type := List Char → Option (List Nat → List Nat)

/-- The iconv facility that always fails to open a context (also the
behaviour when `HAVE_ICONV` is not defined, line 218). -/
def iconvNone : IconvModel := fun _ => none

/-- The `try_iconv` tail of lines 197–220. -/
def tryIconv (iconv : IconvModel) (text : List Nat) (cs : List Char) :
    Option (List Nat) :=
  match iconv cs with
  | none => none
  | some f => some (f text)

/-- Shallow embedding of `convert_to_utf8_(text, charset, output)`
(lines 38–251), preserving the source's control-flow order; in particular
the `if (text.size() < 2) return false;` of line 77 runs before the
endianness suffix of the label is validated. -/
def convert_to_utf8_ (iconv : IconvModel) (text : List Nat)
    (cs : List Char) : Option (List Nat) :=
  if passthroughLabel cs then none
  else
    match preParse cs with
    | .utf16 s =>
      if text.length < 2 then none
      else
        match utf16Endian s with
        | some e => some (utf16Convert e text)
        | none => tryIconv iconv text cs
    | .toIconv => tryIconv iconv text cs
    | .other =>
      match singleByteRoute cs with
      | .cp1252 => some (encodeChunked (text.map cp1252CodePoint))
      | .iso885915 => some (encodeChunked (text.map iso8859_15CodePoint))
      | .toIconv => tryIconv iconv text cs

/-- A byte sequence is well-formed for this engine when it is a concatenation
of complete `to_utf8` encodings (the §4.5 rules) of scalar values at most
`0x10FFFF`; in particular it never ends or begins inside a multi-byte
encoding.  (By the §9 quirk the scalar values may include unpaired
surrogates.) -/
def WellFormedUtf8 (bs : List Nat) : Prop :=
  ∃ cps : List Nat, (∀ c ∈ cps, c < 0x110000) ∧ bs = (cps.map to_utf8).flatten

/-- The dispatcher as the spec's §4.1 words describe it, for comparison with
the code: a resolved decode strategy per label.  Under §4.1 a `utf-16`/`ucs-2`
label with an invalid endianness suffix routes to the generic fallback. -/
inductive SpecRoute where
  | passthrough
  | utf16 (e : Option Bool)
  | cp1252
  | iso885915
  | generic
deriving DecidableEq

def specDispatch (cs : List Char) : SpecRoute :=
  if passthroughLabel cs then .passthrough
  else
    match preParse cs with
    | .utf16 s =>
      match utf16Endian s with
      | some e => .utf16 e
      | none => .generic
    | .toIconv => .generic
    | .other =>
      match singleByteRoute cs with
      | .cp1252 => .cp1252
      | .iso885915 => .iso885915
      | .toIconv => .generic

/-- An iconv facility that opens a context for every label and copies the
input through unchanged; used to exercise the generic-fallback branch. -/
def iconvId : IconvModel := fun _ => some (fun t => t)

/-! ### Step equations and basic lemmas -/

lemma noPair_nil {α : Type} : ∀ (b3 b4 : α) (r : List α), ([] : List α) = b3 :: b4 :: r → False := by
  intro _ _ _ h
  exact List.noConfusion h

lemma noPair_single {α : Type} (x : α) :
    ∀ (b3 b4 : α) (r : List α), [x] = b3 :: b4 :: r → False := by
  intro _ _ _ h
  simp at h

lemma utf16Scalars_nil (be : Bool) : utf16Scalars be [] = [] := rfl

lemma utf16Scalars_single (be : Bool) (b : Nat) : utf16Scalars be [b] = [] := rfl

lemma utf16Scalars_cons_nothigh (be : Bool) (b1 b2 : Nat) (rest : List Nat)
    (h : ¬ utf16Unit be b1 b2 >>> 10 = 0xd800 >>> 10) :
    utf16Scalars be (b1 :: b2 :: rest) = utf16Unit be b1 b2 :: utf16Scalars be rest := by
  match rest with
  | [] => rw [utf16Scalars.eq_2 be b1 b2 [] noPair_nil, if_neg h]
  | [x] => rw [utf16Scalars.eq_2 be b1 b2 [x] (noPair_single x), if_neg h]
  | b3 :: b4 :: r2 => rw [utf16Scalars.eq_1, if_neg h]

lemma utf16Scalars_high_pair (be : Bool) (b1 b2 b3 b4 : Nat) (rest : List Nat)
    (h : utf16Unit be b1 b2 >>> 10 = 0xd800 >>> 10) :
    utf16Scalars be (b1 :: b2 :: b3 :: b4 :: rest) =
      (if utf16Unit be b3 b4 >>> 10 = 0xdc00 >>> 10 then
        ((utf16Unit be b3 b4 &&& 0x3ff) ||| ((utf16Unit be b1 b2 &&& 0x3ff) <<< 10)) + 0x10000
       else utf16Unit be b3 b4) :: utf16Scalars be rest := by
  rw [utf16Scalars.eq_1, if_pos h]

lemma utf16Scalars_high_end_nil (be : Bool) (b1 b2 : Nat)
    (h : utf16Unit be b1 b2 >>> 10 = 0xd800 >>> 10) :
    utf16Scalars be [b1, b2] = [] := by
  rw [utf16Scalars.eq_2 be b1 b2 [] noPair_nil, if_pos h]

/-- `ch >> 10 == 0xd800 >> 10` is exactly the high-surrogate range test. -/
lemma highSurrogate_iff (ch : Nat) :
    ch >>> 10 = 0xd800 >>> 10 ↔ 0xD800 ≤ ch ∧ ch ≤ 0xDBFF := by
  rw [Nat.shiftRight_eq_div_pow, Nat.shiftRight_eq_div_pow]
  norm_num
  omega

/-- `ch >> 10 == 0xdc00 >> 10` is exactly the low-surrogate range test. -/
lemma lowSurrogate_iff (ch : Nat) :
    ch >>> 10 = 0xdc00 >>> 10 ↔ 0xDC00 ≤ ch ∧ ch ≤ 0xDFFF := by
  rw [Nat.shiftRight_eq_div_pow, Nat.shiftRight_eq_div_pow]
  norm_num
  omega

/-- The big-endian unit assembly in additive form. -/
lemma utf16Unit_be (b1 b2 : Nat) (h2 : b2 < 256) :
    utf16Unit true b1 b2 = 256 * b1 + b2 := by
  unfold utf16Unit
  rw [if_pos rfl, Nat.shiftLeft_eq]
  have h := Nat.mul_add_lt_is_or (i := 8) (b := b2) (by norm_num [h2]) b1
  rw [show b1 * 2 ^ 8 = 2 ^ 8 * b1 by ring, ← h]

/-- The little-endian unit assembly in additive form. -/
lemma utf16Unit_le (b1 b2 : Nat) (h1 : b1 < 256) :
    utf16Unit false b1 b2 = 256 * b2 + b1 := by
  unfold utf16Unit
  rw [if_neg (by simp), Nat.shiftLeft_eq]
  have h := Nat.mul_add_lt_is_or (i := 8) (b := b1) (by norm_num [h1]) b2
  rw [show b2 * 2 ^ 8 = 2 ^ 8 * b2 by ring, ← h]

lemma utf16Unit_lt (be : Bool) (b1 b2 : Nat) (h1 : b1 < 256) (h2 : b2 < 256) :
    utf16Unit be b1 b2 < 0x10000 := by
  cases be
  · rw [utf16Unit_le b1 b2 h1]
    omega
  · rw [utf16Unit_be b1 b2 h2]
    omega

/-- The surrogate combination written with `|` and masks (lines 129–131)
equals the additive formula of the spec. -/
lemma surrogateCombine_eq (u v : Nat) :
    ((v &&& 0x3ff) ||| ((u &&& 0x3ff) <<< 10)) + 0x10000 =
      0x10000 + ((u &&& 0x3ff) <<< 10) + (v &&& 0x3ff) := by
  have hv : v &&& 0x3ff < 1024 := by
    have := Nat.and_le_right (n := v) (m := 0x3ff)
    omega
  have h10 : (u &&& 0x3ff) <<< 10 = 2 ^ 10 * (u &&& 0x3ff) := by
    rw [Nat.shiftLeft_eq]
    ring
  have h := Nat.mul_add_lt_is_or (i := 10) (b := v &&& 0x3ff) (by norm_num [hv]) (u &&& 0x3ff)
  rw [h10, Nat.lor_comm, ← h]
  ring

/-- The combined surrogate-pair scalar is below `0x110000`. -/
lemma surrogateCombine_lt (u v : Nat) :
    ((v &&& 0x3ff) ||| ((u &&& 0x3ff) <<< 10)) + 0x10000 < 0x110000 := by
  have ha : v &&& 0x3ff < 2 ^ 20 := by
    have := Nat.and_le_right (n := v) (m := 0x3ff)
    norm_num
    omega
  have hc : (u &&& 0x3ff) <<< 10 < 2 ^ 20 := by
    rw [Nat.shiftLeft_eq]
    have := Nat.and_le_right (n := u) (m := 0x3ff)
    norm_num
    omega
  have := Nat.or_lt_two_pow (n := 20) ha hc
  norm_num at this ⊢
  omega

/-- Every scalar the UTF-16 decode loop emits is at most `0x10FFFF`. -/
lemma utf16Scalars_lt (be : Bool) (l : List Nat) (hb : ∀ b ∈ l, b < 256) :
    ∀ s ∈ utf16Scalars be l, s < 0x110000 := by
  suffices key : ∀ n (l : List Nat), l.length ≤ n → (∀ b ∈ l, b < 256) →
      ∀ s ∈ utf16Scalars be l, s < 0x110000 from key l.length l le_rfl hb
  intro n
  induction n with
  | zero =>
    intro l hl _ s hs
    match l with
    | [] => simp [utf16Scalars_nil] at hs
    | _ :: _ => simp at hl
  | succ n ih =>
    intro l hl hb s hs
    match l with
    | [] => simp [utf16Scalars_nil] at hs
    | [b] => simp [utf16Scalars_single] at hs
    | b1 :: b2 :: rest =>
      by_cases hhi : utf16Unit be b1 b2 >>> 10 = 0xd800 >>> 10
      · match rest with
        | [] =>
          rw [utf16Scalars_high_end_nil be b1 b2 hhi] at hs
          simp at hs
        | [x] =>
          have hz : utf16Scalars be (b1 :: b2 :: [x]) = [] := by
            rw [utf16Scalars.eq_2 be b1 b2 [x] (noPair_single x), if_pos hhi]
          rw [hz] at hs
          simp at hs
        | b3 :: b4 :: r2 =>
          rw [utf16Scalars_high_pair be b1 b2 b3 b4 r2 hhi] at hs
          rcases List.mem_cons.mp hs with hs | hs
          · subst hs
            split
            · exact surrogateCombine_lt (utf16Unit be b1 b2) (utf16Unit be b3 b4)
            · have := utf16Unit_lt be b3 b4 (hb b3 (by simp)) (hb b4 (by simp))
              omega
          · refine ih r2 ?_ (fun b hbm => hb b (by simp [hbm])) s hs
            simp at hl
            omega
      · rw [utf16Scalars_cons_nothigh be b1 b2 rest hhi] at hs
        rcases List.mem_cons.mp hs with hs | hs
        · subst hs
          have := utf16Unit_lt be b1 b2 (hb b1 (by simp)) (hb b2 (by simp))
          omega
        · refine ih rest ?_ (fun b hbm => hb b (by simp [hbm])) s hs
          simp at hl
          omega

/-! ### The chunked encoder -/

lemma to_utf8_length_le (ch : Nat) : (to_utf8 ch).length ≤ 4 := by
  unfold to_utf8
  split
  · simp
  · split
    · simp
    · split <;> simp

/-- One `chunkStep` extends `tmp ++ buf` by exactly the encoding of `ch`,
whether or not the staging buffer is flushed. -/
lemma chunkStep_out (p : List Nat × List Nat) (ch : Nat) :
    (chunkStep p ch).1 ++ (chunkStep p ch).2 = p.1 ++ (p.2 ++ to_utf8 ch) := by
  unfold chunkStep
  dsimp only
  split <;> simp

lemma foldl_chunkStep_out (scalars : List Nat) :
    ∀ p : List Nat × List Nat,
      (scalars.foldl chunkStep p).1 ++ (scalars.foldl chunkStep p).2 =
        p.1 ++ p.2 ++ (scalars.map to_utf8).flatten := by
  induction scalars with
  | nil => intro p; simp
  | cons ch rest ih =>
    intro p
    simp only [List.foldl_cons, List.map_cons, List.flatten_cons]
    rw [ih (chunkStep p ch), chunkStep_out]
    simp [List.append_assoc]

/-- The chunked staging buffer is observationally a plain concatenation of
the complete per-scalar UTF-8 encodings. -/
lemma encodeChunked_eq_flatten (scalars : List Nat) :
    encodeChunked scalars = (scalars.map to_utf8).flatten := by
  unfold encodeChunked
  simpa using foldl_chunkStep_out scalars ([], [])

/-- Before every encode the used part of the staging buffer is at most 1019
bytes: the flush at `start >= sizeof(buf) - 4` keeps it under 1020. -/
lemma chunkStates_bufLen (scalars : List Nat) :
    ∀ acc : List Nat × List Nat, acc.2.length ≤ 1019 →
      ∀ s ∈ chunkStates acc scalars, s.2.length ≤ 1019 := by
  induction scalars with
  | nil => intro acc _ s hs; simp [chunkStates] at hs
  | cons ch rest ih =>
    intro acc hacc s hs
    rw [chunkStates] at hs
    rcases List.mem_cons.mp hs with hs | hs
    · subst hs; exact hacc
    · refine ih (chunkStep acc ch) ?_ s hs
      unfold chunkStep
      dsimp only
      split
      · simp
      · rename_i hlt
        simp only [not_le] at hlt
        simpa using Nat.le_of_lt_succ hlt

/-! ### Scalar-range facts for the single-byte decoders -/

set_option maxRecDepth 100000 in
lemma cp1252CodePoint_lt (b : Nat) (hb : b < 256) : cp1252CodePoint b < 0x110000 := by
  revert b
  decide

set_option maxRecDepth 100000 in
lemma iso8859_15CodePoint_lt (b : Nat) (hb : b < 256) : iso8859_15CodePoint b < 0x110000 := by
  revert b
  decide

/-! ### Well-formedness of the produced byte sequence -/

lemma wellFormed_of_scalars (cps : List Nat) (h : ∀ c ∈ cps, c < 0x110000) :
    WellFormedUtf8 ((cps.map to_utf8).flatten) := ⟨cps, h, rfl⟩

/-- Byte membership survives `evenTrunc`. -/
lemma evenTrunc_subset (l : List Nat) : ∀ b ∈ evenTrunc l, b ∈ l := by
  intro b hb
  unfold evenTrunc at hb
  split at hb
  · exact (List.dropLast_sublist l).mem hb
  · exact hb

/-- Byte membership survives the BOM split. -/
lemma bomSplit_subset (e : Option Bool) (text : List Nat) :
    ∀ b ∈ (bomSplit e text).2, b ∈ text := by
  intro b hb
  match e with
  | some _ => exact hb
  | none =>
    match text with
    | [] => exact hb
    | [t] => exact hb
    | t1 :: t2 :: r =>
      by_cases h1 : t1 = 0xfe ∧ t2 = 0xff
      · simp [bomSplit, h1] at hb
        simp [hb]
      · by_cases h2 : t1 = 0xff ∧ t2 = 0xfe
        · simp [bomSplit, h1, h2] at hb
          simp [hb]
        · simpa [bomSplit, h1, h2] using hb

/-! ### BOM and truncation plumbing -/

lemma bomSplit_fe_ff (r : List Nat) :
    bomSplit none (0xfe :: 0xff :: r) = (true, r) := by
  simp [bomSplit]

lemma bomSplit_ff_fe (r : List Nat) :
    bomSplit none (0xff :: 0xfe :: r) = (false, r) := by
  simp [bomSplit]

lemma bomSplit_noBom (t1 t2 : Nat) (r : List Nat)
    (h1 : ¬(t1 = 0xfe ∧ t2 = 0xff)) (h2 : ¬(t1 = 0xff ∧ t2 = 0xfe)) :
    bomSplit none (t1 :: t2 :: r) = (true, t1 :: t2 :: r) := by
  simp [bomSplit, h1, h2]

lemma evenTrunc_odd (l : List Nat) (h : l.length % 2 = 1) :
    evenTrunc l = l.dropLast := if_pos h

lemma evenTrunc_even (l : List Nat) (h : l.length % 2 = 0) :
    evenTrunc l = l := by
  unfold evenTrunc
  rw [if_neg (by omega)]

lemma evenTrunc_dropLast_of_odd (l : List Nat) (h : l.length % 2 = 1) :
    evenTrunc l.dropLast = l.dropLast := by
  apply evenTrunc_even
  have : l.dropLast.length = l.length - 1 := by simp
  omega

lemma evenTrunc_cons₂ (a b : Nat) (l : List Nat) :
    evenTrunc (a :: b :: l) = a :: b :: evenTrunc l := by
  unfold evenTrunc
  have hlen : (a :: b :: l).length % 2 = l.length % 2 := by simp; omega
  by_cases h : l.length % 2 = 1
  · rw [if_pos (by omega), if_pos h, List.dropLast_cons₂]
    have hne : l ≠ [] := by
      intro he
      subst he
      simp at h
    rw [List.dropLast_cons_of_ne_nil hne]
  · rw [if_neg (by omega), if_neg h]

/-- The decode result is unchanged when the odd trailing byte is removed
up-front: the `--text_end` truncation is equivalent to dropping the byte. -/
lemma utf16Convert_odd (e : Option Bool) (text : List Nat)
    (h : text.length % 2 = 1) :
    utf16Convert e text = utf16Convert e text.dropLast := by
  unfold utf16Convert
  match e with
  | some b =>
    dsimp only [bomSplit]
    rw [evenTrunc_odd text h, evenTrunc_dropLast_of_odd text h]
  | none =>
    match text with
    | [] => simp at h
    | [t] =>
      dsimp only [bomSplit]
      simp [evenTrunc]
    | t1 :: t2 :: r =>
      have hr : r ≠ [] := by
        intro he
        subst he
        simp at h
      have hrlen : r.length % 2 = 1 := by
        simp at h
        omega
      have hdl : (t1 :: t2 :: r).dropLast = t1 :: t2 :: r.dropLast := by
        rw [List.dropLast_cons₂, List.dropLast_cons_of_ne_nil hr]
      rw [hdl]
      by_cases h1 : t1 = 0xfe ∧ t2 = 0xff
      · obtain ⟨ha, hb⟩ := h1
        subst ha; subst hb
        rw [bomSplit_fe_ff, bomSplit_fe_ff]
        dsimp only
        rw [evenTrunc_odd r hrlen, evenTrunc_dropLast_of_odd r hrlen]
      · by_cases h2 : t1 = 0xff ∧ t2 = 0xfe
        · obtain ⟨ha, hb⟩ := h2
          subst ha; subst hb
          rw [bomSplit_ff_fe, bomSplit_ff_fe]
          dsimp only
          rw [evenTrunc_odd r hrlen, evenTrunc_dropLast_of_odd r hrlen]
        · rw [bomSplit_noBom t1 t2 r h1 h2, bomSplit_noBom t1 t2 r.dropLast h1 h2]
          dsimp only
          rw [← hdl, evenTrunc_odd _ h, evenTrunc_dropLast_of_odd _ h]

lemma encodeChunked_cons (c : Nat) (s : List Nat) :
    encodeChunked (c :: s) = to_utf8 c ++ encodeChunked s := by
  rw [encodeChunked_eq_flatten, encodeChunked_eq_flatten]
  simp

/-! ### Claim theorems -/

/-- C2: whenever a unit `u` in the high-surrogate range 0xD800–0xDBFF is
followed by a unit `v` in the low-surrogate range 0xDC00–0xDFFF, the decoder
emits exactly `0x10000 + ((u & 0x3FF) << 10) + (v & 0x3FF)`; and for label
`utf-16be` the input bytes `D8 3D DE 00` convert to exactly `F0 9F 98 80`. -/
theorem utf16_surrogate_pair_combines :
    (∀ (be : Bool) (b1 b2 b3 b4 u v : Nat) (rest : List Nat),
        utf16Unit be b1 b2 = u → utf16Unit be b3 b4 = v →
        0xD800 ≤ u → u ≤ 0xDBFF → 0xDC00 ≤ v → v ≤ 0xDFFF →
        utf16Scalars be (b1 :: b2 :: b3 :: b4 :: rest) =
          (0x10000 + ((u &&& 0x3FF) <<< 10) + (v &&& 0x3FF)) :: utf16Scalars be rest) ∧
      convert_to_utf8_ iconvNone [0xD8, 0x3D, 0xDE, 0x00] (("utf-16be").toList) =
        some [0xF0, 0x9F, 0x98, 0x80] := by
  constructor
  · intro be b1 b2 b3 b4 u v rest h1 h2 hu1 hu2 hv1 hv2
    subst h1
    subst h2
    rw [utf16Scalars_high_pair be b1 b2 b3 b4 rest ((highSurrogate_iff _).mpr ⟨hu1, hu2⟩)]
    rw [if_pos ((lowSurrogate_iff _).mpr ⟨hv1, hv2⟩)]
    rw [surrogateCombine_eq]
  · decide

/-- C2 witness: the general part of the theorem applied at the concrete
surrogate pair `D83D DE00` in big-endian order. -/
theorem utf16_surrogate_pair_combines_witness :
    utf16Scalars true [0xD8, 0x3D, 0xDE, 0x00] =
      (0x10000 + ((0xD83D &&& 0x3FF) <<< 10) + (0xDE00 &&& 0x3FF)) :: utf16Scalars true [] :=
  utf16_surrogate_pair_combines.1 true 0xD8 0x3D 0xDE 0x00 0xD83D 0xDE00 []
    (by decide) (by decide) (by decide) (by decide) (by decide) (by decide)

/-- C3: a high-surrogate unit `u` followed by a unit `v` outside the
low-surrogate range produces no combination: `v` is still consumed and is
emitted as its own scalar value, and `u` contributes nothing. -/
theorem utf16_unpaired_high_drops_and_emits_next :
    ∀ (be : Bool) (b1 b2 b3 b4 u v : Nat) (rest : List Nat),
      utf16Unit be b1 b2 = u → utf16Unit be b3 b4 = v →
      0xD800 ≤ u → u ≤ 0xDBFF → ¬(0xDC00 ≤ v ∧ v ≤ 0xDFFF) →
      utf16Scalars be (b1 :: b2 :: b3 :: b4 :: rest) = v :: utf16Scalars be rest := by
  intro be b1 b2 b3 b4 u v rest h1 h2 hu1 hu2 hv
  subst h1
  subst h2
  rw [utf16Scalars_high_pair be b1 b2 b3 b4 rest ((highSurrogate_iff _).mpr ⟨hu1, hu2⟩)]
  rw [if_neg (fun hc => hv ((lowSurrogate_iff _).mp hc))]

/-- C3 witness: high surrogate `D800` followed by the non-low-surrogate unit
`0041` emits `0x41` alone (and, second instance, a following high surrogate
`D83D` is emitted as an unpaired surrogate scalar). -/
theorem utf16_unpaired_high_witness :
    utf16Scalars true [0xD8, 0x00, 0x00, 0x41] = 0x41 :: utf16Scalars true [] ∧
      utf16Scalars true [0xD8, 0x00, 0xD8, 0x3D] = 0xD83D :: utf16Scalars true [] :=
  ⟨utf16_unpaired_high_drops_and_emits_next true 0xD8 0x00 0x00 0x41 0xD800 0x41 []
      (by decide) (by decide) (by decide) (by decide) (by decide),
   utf16_unpaired_high_drops_and_emits_next true 0xD8 0x00 0xD8 0x3D 0xD800 0xD83D []
      (by decide) (by decide) (by decide) (by decide) (by decide)⟩

/-- C5: on any input routed to the UTF-16 decoder with a resolved endianness,
an odd-length input converts exactly as its even-length prefix (the trailing
byte is discarded before decoding, and no byte past the buffer is read —
the embedding walks only the truncated list); and a high-surrogate unit with
no following unit is discarded: decoding stops with no emission for it. -/
theorem utf16_truncation_graceful :
    (∀ (iconv : IconvModel) (cs : List Char) (text : List Nat),
        (∃ s e, preParse cs = .utf16 s ∧ utf16Endian s = some e) →
        text.length % 2 = 1 →
        convert_to_utf8_ iconv text cs = convert_to_utf8_ iconv text.dropLast cs) ∧
      (∀ (be : Bool) (b1 b2 : Nat),
        0xD800 ≤ utf16Unit be b1 b2 → utf16Unit be b1 b2 ≤ 0xDBFF →
        utf16Scalars be [b1, b2] = []) := by
  constructor
  · intro iconv cs text hroute hodd
    obtain ⟨s, e, hps, hse⟩ := hroute
    by_cases hpt : passthroughLabel cs = true
    · simp [convert_to_utf8_, hpt]
    · simp only [convert_to_utf8_, hpt, hps, hse, if_false, Bool.false_eq_true]
      have hdllen : text.dropLast.length = text.length - 1 := by simp
      by_cases hlen : text.length < 2
      · rw [if_pos hlen, if_pos (by omega)]
      · rw [if_neg hlen, if_neg (by omega)]
        rw [utf16Convert_odd e text hodd]
  · intro be b1 b2 h1 h2
    exact utf16Scalars_high_end_nil be b1 b2 ((highSurrogate_iff _).mpr ⟨h1, h2⟩)

/-- C5 witness: the odd-length part at label `utf-16be` with the 3-byte input
`00 41 00`, and the trailing-high-surrogate part at unit `D800`. -/
theorem utf16_truncation_graceful_witness :
    convert_to_utf8_ iconvNone [0x00, 0x41, 0x00] (("utf-16be").toList) =
        convert_to_utf8_ iconvNone ([0x00, 0x41, 0x00].dropLast) (("utf-16be").toList) ∧
      utf16Scalars true [0xD8, 0x00] = [] :=
  ⟨utf16_truncation_graceful.1 iconvNone (("utf-16be").toList) [0x00, 0x41, 0x00]
      ⟨("be").toList, some true, by decide, by decide⟩ (by decide),
   utf16_truncation_graceful.2 true 0xD8 0x00 (by decide) (by decide)⟩

/-- C6: label `iso-8859-1` is deliberately treated identically to
`windows-1252` — same converted flag and same bytes on every input — and in
particular byte `0x80` maps to the UTF-8 encoding `E2 82 AC` of U+20AC, not
to the control character U+0080. -/
theorem iso8859_1_aliases_windows1252 :
    (∀ (iconv : IconvModel) (text : List Nat),
        convert_to_utf8_ iconv text (("iso-8859-1").toList) =
          convert_to_utf8_ iconv text (("windows-1252").toList)) ∧
      convert_to_utf8_ iconvNone [0x80] (("iso-8859-1").toList) =
        some [0xE2, 0x82, 0xAC] := by
  constructor
  · intro iconv text
    have ha1 : passthroughLabel (("iso-8859-1").toList) = false := by decide
    have ha2 : preParse (("iso-8859-1").toList) = .other := by decide
    have ha3 : singleByteRoute (("iso-8859-1").toList) = .cp1252 := by decide
    have hb1 : passthroughLabel (("windows-1252").toList) = false := by decide
    have hb2 : preParse (("windows-1252").toList) = .other := by decide
    have hb3 : singleByteRoute (("windows-1252").toList) = .cp1252 := by decide
    simp only [convert_to_utf8_, ha1, ha2, ha3, hb1, hb2, hb3, Bool.false_eq_true, if_false]
  · decide

/-- C4: in BOM-detect mode (label `utf-16`): a leading `FE FF` selects
big-endian and is consumed (converting like `utf-16be` on the remainder), a
leading `FF FE` selects little-endian and is consumed (like `utf-16le` on
the remainder), and any other leading bytes decode big-endian with nothing
consumed (like `utf-16be` on the whole input); `FE FF 00 41` and
`FF FE 41 00` both convert to the single byte `41`. -/
theorem utf16_bom_detection :
    (∀ (iconv : IconvModel) (rest : List Nat), 2 ≤ rest.length →
        convert_to_utf8_ iconv (0xFE :: 0xFF :: rest) (("utf-16").toList) =
          convert_to_utf8_ iconv rest (("utf-16be").toList)) ∧
      (∀ (iconv : IconvModel) (rest : List Nat), 2 ≤ rest.length →
        convert_to_utf8_ iconv (0xFF :: 0xFE :: rest) (("utf-16").toList) =
          convert_to_utf8_ iconv rest (("utf-16le").toList)) ∧
      (∀ (iconv : IconvModel) (b1 b2 : Nat) (rest : List Nat),
        ¬(b1 = 0xFE ∧ b2 = 0xFF) → ¬(b1 = 0xFF ∧ b2 = 0xFE) →
        convert_to_utf8_ iconv (b1 :: b2 :: rest) (("utf-16").toList) =
          convert_to_utf8_ iconv (b1 :: b2 :: rest) (("utf-16be").toList)) ∧
      convert_to_utf8_ iconvNone [0xFE, 0xFF, 0x00, 0x41] (("utf-16").toList) =
        some [0x41] ∧
      convert_to_utf8_ iconvNone [0xFF, 0xFE, 0x41, 0x00] (("utf-16").toList) =
        some [0x41] := by
  have hd1 : passthroughLabel (("utf-16").toList) = false := by decide
  have hd2 : preParse (("utf-16").toList) = .utf16 [] := by decide
  have hd3 : utf16Endian [] = some none := by decide
  have hbe1 : passthroughLabel (("utf-16be").toList) = false := by decide
  have hbe2 : preParse (("utf-16be").toList) = .utf16 (("be").toList) := by decide
  have hbe3 : utf16Endian (("be").toList) = some (some true) := by decide
  have hle1 : passthroughLabel (("utf-16le").toList) = false := by decide
  have hle2 : preParse (("utf-16le").toList) = .utf16 (("le").toList) := by decide
  have hle3 : utf16Endian (("le").toList) = some (some false) := by decide
  refine ⟨?_, ?_, ?_, by decide, by decide⟩
  · intro iconv rest hlen
    simp only [convert_to_utf8_, hd1, hd2, hd3, hbe1, hbe2, hbe3,
      Bool.false_eq_true, if_false]
    rw [if_neg (by simp), if_neg (by omega)]
    unfold utf16Convert
    rw [bomSplit_fe_ff]
    dsimp only [bomSplit]
  · intro iconv rest hlen
    simp only [convert_to_utf8_, hd1, hd2, hd3, hle1, hle2, hle3,
      Bool.false_eq_true, if_false]
    rw [if_neg (by simp), if_neg (by omega)]
    unfold utf16Convert
    rw [bomSplit_ff_fe]
    dsimp only [bomSplit]
  · intro iconv b1 b2 rest h1 h2
    simp only [convert_to_utf8_, hd1, hd2, hd3, hbe1, hbe2, hbe3,
      Bool.false_eq_true, if_false]
    by_cases hlen : (b1 :: b2 :: rest).length < 2
    · rw [if_pos hlen, if_pos hlen]
    · rw [if_neg hlen, if_neg hlen]
      unfold utf16Convert
      rw [bomSplit_noBom b1 b2 rest h1 h2]
      dsimp only [bomSplit]

/-- C4 witness: the three general parts applied at concrete inputs. -/
theorem utf16_bom_detection_witness :
    convert_to_utf8_ iconvNone [0xFE, 0xFF, 0x00, 0x41] (("utf-16").toList) =
        convert_to_utf8_ iconvNone [0x00, 0x41] (("utf-16be").toList) ∧
      convert_to_utf8_ iconvNone [0xFF, 0xFE, 0x41, 0x00] (("utf-16").toList) =
        convert_to_utf8_ iconvNone [0x41, 0x00] (("utf-16le").toList) ∧
      convert_to_utf8_ iconvNone [0x00, 0x41] (("utf-16").toList) =
        convert_to_utf8_ iconvNone [0x00, 0x41] (("utf-16be").toList) :=
  ⟨utf16_bom_detection.1 iconvNone [0x00, 0x41] (by decide),
   utf16_bom_detection.2.1 iconvNone [0x41, 0x00] (by decide),
   utf16_bom_detection.2.2.1 iconvNone 0x00 0x41 [] (by decide) (by decide)⟩

/-- C8: in the single-byte decoders each input byte is mapped independently
and in input order to one scalar value — the table entry for bytes
0x80–0x9F (cp1252 table) resp. 0xA4–0xBE (iso-8859-15 table), the byte
itself otherwise — and the whole conversion is the concatenation of the
per-byte UTF-8 encodings; `iso-8859-15` maps byte `A4` to `E2 82 AC`. -/
theorem single_byte_table_mapping :
    (∀ b : Nat, 0x80 ≤ b → b ≤ 0x9F →
        cp1252CodePoint b = cp1252_to_unicode.getD (b - 0x80) 0) ∧
      (∀ b : Nat, b < 256 → ¬(0x80 ≤ b ∧ b ≤ 0x9F) → cp1252CodePoint b = b) ∧
      (∀ b : Nat, 0xA4 ≤ b → b ≤ 0xBE →
        iso8859_15CodePoint b = iso8859_15_to_unicode.getD (b - 0xA4) 0) ∧
      (∀ b : Nat, b < 256 → ¬(0xA4 ≤ b ∧ b ≤ 0xBE) → iso8859_15CodePoint b = b) ∧
      (∀ (iconv : IconvModel) (text : List Nat),
        convert_to_utf8_ iconv text (("windows-1252").toList) =
          some ((text.map fun b => to_utf8 (cp1252CodePoint b)).flatten)) ∧
      (∀ (iconv : IconvModel) (text : List Nat),
        convert_to_utf8_ iconv text (("iso-8859-15").toList) =
          some ((text.map fun b => to_utf8 (iso8859_15CodePoint b)).flatten)) ∧
      convert_to_utf8_ iconvNone [0xA4] (("iso-8859-15").toList) =
        some [0xE2, 0x82, 0xAC] := by
  refine ⟨?_, ?_, ?_, ?_, ?_, ?_, by decide⟩
  · intro b h1 h2
    unfold cp1252CodePoint
    dsimp only
    rw [show (b + (4294967296 - 128)) % 4294967296 = b - 128 by omega]
    rw [if_pos (by omega)]
  · intro b hb h
    unfold cp1252CodePoint
    dsimp only
    rw [if_neg (by omega)]
  · intro b h1 h2
    unfold iso8859_15CodePoint
    dsimp only
    rw [show (b + (4294967296 - 164)) % 4294967296 = b - 164 by omega]
    rw [if_pos (by omega)]
  · intro b hb h
    unfold iso8859_15CodePoint
    dsimp only
    rw [if_neg (by omega)]
  · intro iconv text
    have h1 : passthroughLabel (("windows-1252").toList) = false := by decide
    have h2 : preParse (("windows-1252").toList) = .other := by decide
    have h3 : singleByteRoute (("windows-1252").toList) = .cp1252 := by decide
    simp only [convert_to_utf8_, h1, h2, h3, Bool.false_eq_true, if_false]
    rw [encodeChunked_eq_flatten, List.map_map]
    simp only [Function.comp_def]
  · intro iconv text
    have h1 : passthroughLabel (("iso-8859-15").toList) = false := by decide
    have h2 : preParse (("iso-8859-15").toList) = .other := by decide
    have h3 : singleByteRoute (("iso-8859-15").toList) = .iso885915 := by decide
    simp only [convert_to_utf8_, h1, h2, h3, Bool.false_eq_true, if_false]
    rw [encodeChunked_eq_flatten, List.map_map]
    simp only [Function.comp_def]

/-- C8 witness: the four range-conditioned parts applied at bytes `0x80`,
`0x41`, `0xA4` and `0xFF`. -/
theorem single_byte_table_mapping_witness :
    cp1252CodePoint 0x80 = cp1252_to_unicode.getD 0 0 ∧
      cp1252CodePoint 0x41 = 0x41 ∧
      iso8859_15CodePoint 0xA4 = iso8859_15_to_unicode.getD 0 0 ∧
      iso8859_15CodePoint 0xFF = 0xFF :=
  ⟨single_byte_table_mapping.1 0x80 (by decide) (by decide),
   single_byte_table_mapping.2.1 0x41 (by decide) (by decide),
   single_byte_table_mapping.2.2.1 0xA4 (by decide) (by decide),
   single_byte_table_mapping.2.2.2.1 0xFF (by decide) (by decide)⟩

/-- C9: whenever a scalar value is about to be encoded into the 1024-byte
staging buffer, at most 1019 bytes are in use, so at least 4 bytes (more
than any single UTF-8 encoding, whose length is at most 4) remain and no
encode writes past the end of the buffer. -/
theorem staging_buffer_never_overruns :
    (∀ scalars : List Nat, ∀ s ∈ chunkStates ([], []) scalars,
        s.2.length + 4 ≤ 1024) ∧
      ∀ ch : Nat, (to_utf8 ch).length ≤ 4 := by
  constructor
  · intro scalars s hs
    have := chunkStates_bufLen scalars ([], []) (by simp) s hs
    omega
  · exact to_utf8_length_le

/-- C9 witness: the buffer-capacity part applied to the first encode state of
a one-scalar stream. -/
theorem staging_buffer_never_overruns_witness :
    (([], []) : List Nat × List Nat).2.length + 4 ≤ 1024 :=
  staging_buffer_never_overruns.1 [0x41] ([], []) (by decide)

/-- C10: a label carrying an explicit endianness suffix never consumes a
byte-order mark: with `utf-16be`/`ucs-2be`-style labels a leading `FE FF`
(resp. `FF FE` for the `le` labels) is decoded as the unit 0xFEFF and
encoded into the output as `EF BB BF` rather than stripped; the four labels
`utf-16le`, `utf-16be`, `ucs-2le`, `ucs-2be` (any case) resolve to explicit
endianness. -/
theorem explicit_endianness_never_consumes_bom :
    (∀ (iconv : IconvModel) (cs s : List Char) (rest : List Nat),
        passthroughLabel cs = false → preParse cs = .utf16 s →
        utf16Endian s = some (some true) →
        convert_to_utf8_ iconv (0xFE :: 0xFF :: rest) cs =
          some ([0xEF, 0xBB, 0xBF] ++
            encodeChunked (utf16Scalars true (evenTrunc rest)))) ∧
      (∀ (iconv : IconvModel) (cs s : List Char) (rest : List Nat),
        passthroughLabel cs = false → preParse cs = .utf16 s →
        utf16Endian s = some (some false) →
        convert_to_utf8_ iconv (0xFF :: 0xFE :: rest) cs =
          some ([0xEF, 0xBB, 0xBF] ++
            encodeChunked (utf16Scalars false (evenTrunc rest)))) ∧
      specDispatch (("utf-16le").toList) = .utf16 (some false) ∧
      specDispatch (("utf-16be").toList) = .utf16 (some true) ∧
      specDispatch (("ucs-2le").toList) = .utf16 (some false) ∧
      specDispatch (("ucs-2be").toList) = .utf16 (some true) ∧
      specDispatch (("UTF-16LE").toList) = .utf16 (some false) := by
  have hval : ∀ be : Bool, ∀ b1 b2 : Nat, utf16Unit be b1 b2 = 0xFEFF →
      ∀ r : List Nat, utf16Scalars be (b1 :: b2 :: r) = 0xFEFF :: utf16Scalars be r := by
    intro be b1 b2 hu r
    rw [utf16Scalars_cons_nothigh be b1 b2 r (by rw [hu]; decide), hu]
  refine ⟨?_, ?_, by decide, by decide, by decide, by decide, by decide⟩
  · intro iconv cs s rest hpt hps hse
    simp only [convert_to_utf8_, hpt, hps, hse, Bool.false_eq_true, if_false]
    rw [if_neg (by simp)]
    unfold utf16Convert
    dsimp only [bomSplit]
    rw [evenTrunc_cons₂, hval true 0xFE 0xFF (by decide) (evenTrunc rest)]
    rw [encodeChunked_cons]
    rfl
  · intro iconv cs s rest hpt hps hse
    simp only [convert_to_utf8_, hpt, hps, hse, Bool.false_eq_true, if_false]
    rw [if_neg (by simp)]
    unfold utf16Convert
    dsimp only [bomSplit]
    rw [evenTrunc_cons₂, hval false 0xFF 0xFE (by decide) (evenTrunc rest)]
    rw [encodeChunked_cons]
    rfl

/-- C10 witness: the BE and LE parts applied at the labels `utf-16be` and
`ucs-2le` with a two-byte tail. -/
theorem explicit_endianness_never_consumes_bom_witness :
    convert_to_utf8_ iconvNone [0xFE, 0xFF, 0x00, 0x41] (("utf-16be").toList) =
        some ([0xEF, 0xBB, 0xBF] ++
          encodeChunked (utf16Scalars true (evenTrunc [0x00, 0x41]))) ∧
      convert_to_utf8_ iconvNone [0xFF, 0xFE, 0x41, 0x00] (("ucs-2le").toList) =
        some ([0xEF, 0xBB, 0xBF] ++
          encodeChunked (utf16Scalars false (evenTrunc [0x41, 0x00]))) :=
  ⟨explicit_endianness_never_consumes_bom.1 iconvNone (("utf-16be").toList)
      (("be").toList) [0x00, 0x41] (by decide) (by decide) (by decide),
   explicit_endianness_never_consumes_bom.2.1 iconvNone (("ucs-2le").toList)
      (("le").toList) [0x41, 0x00] (by decide) (by decide) (by decide)⟩

/-- C1: whenever the conversion returns `converted = true`, the produced
bytes are a concatenation of complete per-scalar UTF-8 encodings under the
§4.5 rules — never a partially-encoded multi-byte sequence, since the
staging buffer is flushed only at code-point boundaries.  The generic
fallback delegates to the external facility, so its output is well-formed
under the assumption that the facility produces well-formed UTF-8. -/
theorem converted_output_is_wellformed (iconv : IconvModel) (text : List Nat)
    (cs : List Char) (out : List Nat)
    (hb : ∀ b ∈ text, b < 256)
    (hic : ∀ (cs' : List Char) (f : List Nat → List Nat),
      iconv cs' = some f → ∀ t : List Nat, WellFormedUtf8 (f t))
    (h : convert_to_utf8_ iconv text cs = some out) :
    WellFormedUtf8 out := by
  have htry : ∀ o : List Nat, tryIconv iconv text cs = some o → WellFormedUtf8 o := by
    intro o ho
    unfold tryIconv at ho
    rcases hi : iconv cs with _ | f
    · rw [hi] at ho
      exact absurd ho (by simp)
    · rw [hi] at ho
      simp only [Option.some.injEq] at ho
      rw [← ho]
      exact hic cs f hi text
  by_cases hpt : passthroughLabel cs = true
  · simp [convert_to_utf8_, hpt] at h
  · rcases hp : preParse cs with s | _ | _
    · simp only [convert_to_utf8_, hpt, hp, Bool.false_eq_true, if_false] at h
      by_cases hlen : text.length < 2
      · rw [if_pos hlen] at h
        exact absurd h (by simp)
      · rw [if_neg hlen] at h
        rcases he : utf16Endian s with _ | e
        · rw [he] at h
          exact htry out h
        · rw [he] at h
          simp only [Option.some.injEq] at h
          rw [← h]
          unfold utf16Convert
          rw [encodeChunked_eq_flatten]
          apply wellFormed_of_scalars
          intro c hc
          refine utf16Scalars_lt _ _ ?_ c hc
          intro b hbm
          exact hb b (bomSplit_subset e text b (evenTrunc_subset _ b hbm))
    · simp only [convert_to_utf8_, hpt, hp, Bool.false_eq_true, if_false] at h
      exact htry out h
    · rcases hs : singleByteRoute cs with _ | _ | _
      · simp only [convert_to_utf8_, hpt, hp, hs, Bool.false_eq_true, if_false,
          Option.some.injEq] at h
        rw [← h, encodeChunked_eq_flatten]
        apply wellFormed_of_scalars
        intro c hc
        obtain ⟨b, hbm, hbc⟩ := List.mem_map.mp hc
        rw [← hbc]
        exact cp1252CodePoint_lt b (hb b hbm)
      · simp only [convert_to_utf8_, hpt, hp, hs, Bool.false_eq_true, if_false,
          Option.some.injEq] at h
        rw [← h, encodeChunked_eq_flatten]
        apply wellFormed_of_scalars
        intro c hc
        obtain ⟨b, hbm, hbc⟩ := List.mem_map.mp hc
        rw [← hbc]
        exact iso8859_15CodePoint_lt b (hb b hbm)
      · simp only [convert_to_utf8_, hpt, hp, hs, Bool.false_eq_true, if_false] at h
        exact htry out h

/-- C1 witness: the theorem applied at label `windows-1252`, input `41`, with
the always-failing iconv facility. -/
theorem converted_output_is_wellformed_witness : WellFormedUtf8 [0x41] :=
  converted_output_is_wellformed iconvNone [0x41] (("windows-1252").toList) [0x41]
    (by decide) (fun _ _ hf _ => Option.noConfusion hf) (by decide)

/-- C7 counterexample: the claim's characterization of `converted = false`
fails on the code for the label `utf-16x` (a `utf-16` prefix with an invalid
endianness suffix, which the spec's dispatcher routes to the generic
fallback) with a 1-byte input and an available generic facility: the code
returns `false` from the UTF-16 length check before validating the suffix,
yet none of the claim's three cases applies. -/
theorem convert_false_cases_counterexample :
    ¬ (convert_to_utf8_ iconvId [0x41] (("utf-16x").toList) = none ↔
        (specDispatch (("utf-16x").toList) = .passthrough ∨
         ((∃ e, specDispatch (("utf-16x").toList) = .utf16 e) ∧
           ([0x41] : List Nat).length < 2) ∨
         (specDispatch (("utf-16x").toList) = .generic ∧
           iconvId (("utf-16x").toList) = none))) := by
  intro hiff
  have hnone : convert_to_utf8_ iconvId [0x41] (("utf-16x").toList) = none := by
    have hpt : passthroughLabel (("utf-16x").toList) = false := by decide
    have hpp : preParse (("utf-16x").toList) = .utf16 ['x'] := by decide
    simp only [convert_to_utf8_, hpt, hpp, Bool.false_eq_true, if_false]
    rw [if_pos (by decide)]
  rcases hiff.mp hnone with hc | hc | hc
  · exact absurd hc (by decide)
  · obtain ⟨⟨e, he⟩, _⟩ := hc
    have hg : specDispatch (("utf-16x").toList) = .generic := by decide
    rw [hg] at he
    exact SpecRoute.noConfusion he
  · have h2 := hc.2
    simp [iconvId] at h2

/-- C7 (amended): `converted = false` exactly when the label is a case
variation of `utf-8`, `utf8`, `us-ascii` or empty; or the label has a
`utf-16`/`ucs-2` prefix — even one whose invalid endianness suffix would
route it to the generic fallback — and the input is shorter than 2 bytes;
or the conversion reaches the generic fallback and the external facility is
unavailable or cannot open a context for the label.  (`none` models the
output parameter being left unmodified.) -/
theorem convert_false_cases_amended (iconv : IconvModel) (text : List Nat)
    (cs : List Char) :
    (convert_to_utf8_ iconv text cs = none ↔
      (passthroughLabel cs = true ∨
       ((∃ s, preParse cs = .utf16 s) ∧ text.length < 2) ∨
       (specDispatch cs = .generic ∧ iconv cs = none))) ∧
      (passthroughLabel cs = true ↔
        (cs.map asciiLower = ("utf-8").toList ∨
         cs.map asciiLower = ("utf8").toList ∨
         cs.map asciiLower = ("us-ascii").toList ∨ cs = [])) := by
  constructor
  · by_cases hpt : passthroughLabel cs = true
    · simp [convert_to_utf8_, hpt]
    · have hptf : passthroughLabel cs = false := by
        cases hq : passthroughLabel cs
        · rfl
        · exact absurd hq hpt
      rcases hp : preParse cs with s | _ | _
      · rcases he : utf16Endian s with _ | e
        · have hsd : specDispatch cs = .generic := by
            simp [specDispatch, hptf, hp, he]
          simp only [convert_to_utf8_, hptf, hp, he, Bool.false_eq_true, if_false]
          by_cases hlen : text.length < 2
          · rw [if_pos hlen]
            simp [hlen]
          · rw [if_neg hlen]
            unfold tryIconv
            rcases hi : iconv cs with _ | f
            · simp [hi, hsd]
            · simp [hi, hsd, hptf, hlen]
        · have hsd : specDispatch cs = .utf16 e := by
            simp [specDispatch, hptf, hp, he]
          simp only [convert_to_utf8_, hptf, hp, he, Bool.false_eq_true, if_false]
          by_cases hlen : text.length < 2
          · rw [if_pos hlen]
            simp [hlen]
          · rw [if_neg hlen]
            simp [hsd, hptf, hlen]
      · have hsd : specDispatch cs = .generic := by
          simp [specDispatch, hptf, hp]
        simp only [convert_to_utf8_, hptf, hp, Bool.false_eq_true, if_false]
        unfold tryIconv
        rcases hi : iconv cs with _ | f
        · simp [hi, hsd]
        · simp [hi, hsd, hptf]
      · rcases hs : singleByteRoute cs with _ | _ | _
        · have hsd : specDispatch cs = .cp1252 := by
            simp [specDispatch, hptf, hp, hs]
          simp only [convert_to_utf8_, hptf, hp, hs, Bool.false_eq_true, if_false]
          simp [hsd, hptf]
        · have hsd : specDispatch cs = .iso885915 := by
            simp [specDispatch, hptf, hp, hs]
          simp only [convert_to_utf8_, hptf, hp, hs, Bool.false_eq_true, if_false]
          simp [hsd, hptf]
        · have hsd : specDispatch cs = .generic := by
            simp [specDispatch, hptf, hp, hs]
          simp only [convert_to_utf8_, hptf, hp, hs, Bool.false_eq_true, if_false]
          unfold tryIconv
          rcases hi : iconv cs with _ | f
          · simp [hi, hsd]
          · simp [hi, hsd, hptf]
  · simp only [passthroughLabel, lowEq, Bool.or_eq_true, beq_iff_eq,
      List.isEmpty_iff]
    tauto

end Utf8Convert
